import Mathlib

/-!
Verification of the pairing-and-orchestration engine of the video overlay
application (`src/main.py`). Python functions are shallowly embedded as Lean
definitions: float durations become rationals, the OpenCV/ffmpeg environment
becomes explicit parameters, stateful methods become functions on explicit
state records, and the driver/job threads become traces and a step relation.
-/

namespace VideoOverlay

/-! ## MediaProbe: `get_video_duration` (main.py lines 49-75)

The probe opens the container with OpenCV; the embedding abstracts the cv2
calls into a `CapProbe` value describing what the environment reported:
the container failed to open, some call raised an exception, or the
container opened and reported a frame rate (float, embedded as ℚ) and a
frame count (truncated to int by the source, embedded as ℤ). -/

inductive CapProbe where
  | openFail : CapProbe
  | raised : CapProbe
  | opened (fps : ℚ) (frameCount : ℤ) : CapProbe
deriving DecidableEq, Repr

/-- Embedding of `get_video_duration`: returns 0 when the container cannot be
opened, when `fps <= 0 or frame_count <= 0`, when the computed duration is
not positive, or when an exception occurs; otherwise `frame_count / fps`. -/
def get_video_duration (c : CapProbe) : ℚ :=
  match c with
  | .openFail => 0
  | .raised => 0
  | .opened fps frameCount =>
      if fps ≤ 0 ∨ frameCount ≤ 0 then 0
      else
        let duration := (frameCount : ℚ) / fps
        if duration > 0 then duration else 0

/-! ## PairSelector (main.py lines 290-339)

`get_suitable_overlay_videos` probes the main video and every overlay; the
probe results are abstracted as a function `probe : String → ℚ` giving the
value `get_video_duration` returned for each path. -/

/-- Loop body predicate of `get_suitable_overlay_videos`: an overlay is kept
when its probed duration is positive (`continue` otherwise) and lies in
`[main_duration, main_duration * 3.0]`. -/
def suitableOverlay (mainDuration : ℚ) (probe : String → ℚ) (p : String) : Bool :=
  let overlayDuration := probe p
  if overlayDuration ≤ 0 then false
  else decide (mainDuration ≤ overlayDuration) && decide (overlayDuration ≤ mainDuration * 3)

/-- Embedding of `get_suitable_overlay_videos`: returns `[]` when the main
video's duration probes nonpositive, else filters the overlay list. -/
def get_suitable_overlay_videos (probe : String → ℚ) (overlays : List String)
    (mainPath : String) : List String :=
  let mainDuration := probe mainPath
  if mainDuration ≤ 0 then []
  else overlays.filter (suitableOverlay mainDuration probe)

/-- Embedding of `select_random_overlay_video`. Python's `random.choice`
picks a uniformly random index into the suitable list; the randomness is
abstracted as the index `i`, reduced modulo the list length. -/
def select_random_overlay_video (probe : String → ℚ) (overlays : List String)
    (mainPath : String) (i : Nat) : Option String :=
  let suitable := get_suitable_overlay_videos probe overlays mainPath
  if h : suitable = [] then none
  else some (suitable.get ⟨i % suitable.length, Nat.mod_lt i (by
    cases hl : suitable with
    | nil => exact absurd hl h
    | cons a l => simp [hl])⟩)

/-- Concrete probe for the spec's pairing-window example: main duration 10,
overlay durations 5, 10, 30, 31. -/
def probeExample : String → ℚ := fun s =>
  if s = "M" then 10
  else if s = "o5" then 5
  else if s = "o10" then 10
  else if s = "o30" then 30
  else if s = "o31" then 31
  else 0

/-! ### Lemmas about the pair selector -/

theorem suitableOverlay_eq_true (m : ℚ) (probe : String → ℚ) (p : String) :
    suitableOverlay m probe p = true ↔
      ¬ probe p ≤ 0 ∧ m ≤ probe p ∧ probe p ≤ m * 3 := by
  unfold suitableOverlay
  by_cases h : probe p ≤ 0 <;> simp [h]

theorem card_get_eq_count {α : Type} [DecidableEq α] (l : List α) (x : α) :
    (Finset.univ.filter (fun j : Fin l.length => l.get j = x)).card = l.count x := by
  have h := Fin.card_filter_univ_eq_vector_get_eq_count x (⟨l, rfl⟩ : Mathlib.Vector α l.length)
  exact h

/-- C1: for every main duration m > 0, the suitable overlays are exactly the
overlay paths whose probed duration d satisfies m ≤ d ≤ 3m (closed at both
ends); concretely, for m = 10 and overlay durations 5, 10, 30, 31 the
suitable set is exactly the overlays of durations 10 and 30. -/
theorem C1_pairing_window :
    (∀ (probe : String → ℚ) (overlays : List String) (mainPath p : String),
      0 < probe mainPath →
      (p ∈ get_suitable_overlay_videos probe overlays mainPath ↔
        p ∈ overlays ∧ probe mainPath ≤ probe p ∧ probe p ≤ 3 * probe mainPath)) ∧
    get_suitable_overlay_videos probeExample ["o5", "o10", "o30", "o31"] "M" =
      ["o10", "o30"] := by
  constructor
  · intro probe overlays mainPath p hm
    unfold get_suitable_overlay_videos
    rw [if_neg (not_le.mpr hm), List.mem_filter, suitableOverlay_eq_true]
    constructor
    · rintro ⟨hmem, -, hlo, hhi⟩
      exact ⟨hmem, hlo, by linarith⟩
    · rintro ⟨hmem, hlo, hhi⟩
      exact ⟨hmem, by intro h; linarith, hlo, by linarith⟩
  · norm_num [get_suitable_overlay_videos, suitableOverlay, probeExample, List.filter]
    decide

/-- C1 witness: the interval characterisation instantiated at the concrete
example probe, main path and overlay path. -/
theorem C1_pairing_window_witness :
    0 < probeExample "M" ∧
    ("o10" ∈ get_suitable_overlay_videos probeExample ["o5", "o10", "o30", "o31"] "M" ↔
      "o10" ∈ ["o5", "o10", "o30", "o31"] ∧ probeExample "M" ≤ probeExample "o10" ∧
        probeExample "o10" ≤ 3 * probeExample "M") :=
  ⟨by decide,
    C1_pairing_window.1 probeExample ["o5", "o10", "o30", "o31"] "M" "o10" (by decide)⟩

/-- C7: the duration probe returns 0 on an unopenable container, on an
internal exception, and on nonpositive frame rate or frame count; otherwise
it returns frame_count / fps, which is strictly positive. It never raises
(it is a total function into ℚ). -/
theorem C7_probe_failure_tolerant :
    get_video_duration .openFail = 0 ∧
    get_video_duration .raised = 0 ∧
    (∀ (fps : ℚ) (frameCount : ℤ), fps ≤ 0 ∨ frameCount ≤ 0 →
      get_video_duration (.opened fps frameCount) = 0) ∧
    (∀ (fps : ℚ) (frameCount : ℤ), 0 < fps → 0 < frameCount →
      get_video_duration (.opened fps frameCount) = (frameCount : ℚ) / fps ∧
      0 < get_video_duration (.opened fps frameCount)) := by
  refine ⟨rfl, rfl, ?_, ?_⟩
  · intro fps frameCount h
    simp [get_video_duration, h]
  · intro fps frameCount hf hc
    have hpos : (0 : ℚ) < (frameCount : ℚ) / fps :=
      div_pos (by exact_mod_cast hc) hf
    have hcond : ¬ (fps ≤ 0 ∨ frameCount ≤ 0) := by
      push_neg
      exact ⟨hf, hc⟩
    constructor
    · simp [get_video_duration, hcond, hpos]
    · simp [get_video_duration, hcond, hpos]

/-- C7 witness: the positive branch instantiated at fps = 30,
frame count = 900. -/
theorem C7_probe_failure_tolerant_witness :
    0 < (30 : ℚ) ∧ 0 < (900 : ℤ) ∧
    (get_video_duration (.opened 30 900) = ((900 : ℤ) : ℚ) / 30 ∧
      0 < get_video_duration (.opened 30 900)) :=
  ⟨by decide, by decide, C7_probe_failure_tolerant.2.2.2 30 900 (by decide) (by decide)⟩

/-- C8: overlay selection returns none exactly when the suitable set is
empty (an empty result does not raise: the function is total); a returned
overlay is a member of the suitable set; and the choice is uniform over
positions: for a uniformly random index, each value x is hit by exactly
(count of x in the suitable list) of the indices. -/
theorem C8_select_random_total_uniform :
    ∀ (probe : String → ℚ) (overlays : List String) (mainPath : String) (i : Nat),
      (select_random_overlay_video probe overlays mainPath i = none ↔
        get_suitable_overlay_videos probe overlays mainPath = []) ∧
      (∀ r, select_random_overlay_video probe overlays mainPath i = some r →
        r ∈ get_suitable_overlay_videos probe overlays mainPath) ∧
      (∀ x, (Finset.univ.filter
          (fun j : Fin (get_suitable_overlay_videos probe overlays mainPath).length =>
            (get_suitable_overlay_videos probe overlays mainPath).get j = x)).card =
        (get_suitable_overlay_videos probe overlays mainPath).count x) := by
  intro probe overlays mainPath i
  refine ⟨?_, ?_, fun x => card_get_eq_count _ x⟩
  · unfold select_random_overlay_video
    by_cases h : get_suitable_overlay_videos probe overlays mainPath = [] <;> simp [h]
  · intro r hr
    unfold select_random_overlay_video at hr
    by_cases h : get_suitable_overlay_videos probe overlays mainPath = []
    · simp [h] at hr
    · simp only [h, dite_false] at hr
      rw [← Option.some_inj.mp hr]
      exact List.get_mem _ _ _

/-- C8 witness: selection at the concrete example probe with index 1. -/
theorem C8_select_random_total_uniform_witness :
    (select_random_overlay_video probeExample ["o5", "o10", "o30", "o31"] "M" 1 = none ↔
      get_suitable_overlay_videos probeExample ["o5", "o10", "o30", "o31"] "M" = []) ∧
    (∀ r, select_random_overlay_video probeExample ["o5", "o10", "o30", "o31"] "M" 1 = some r →
      r ∈ get_suitable_overlay_videos probeExample ["o5", "o10", "o30", "o31"] "M") ∧
    (∀ x, (Finset.univ.filter
        (fun j : Fin (get_suitable_overlay_videos probeExample
            ["o5", "o10", "o30", "o31"] "M").length =>
          (get_suitable_overlay_videos probeExample ["o5", "o10", "o30", "o31"] "M").get j
            = x)).card =
      (get_suitable_overlay_videos probeExample ["o5", "o10", "o30", "o31"] "M").count x) :=
  C8_select_random_total_uniform probeExample ["o5", "o10", "o30", "o31"] "M" 1

/-! ## sanitize_filename (main.py lines 42-47)

`sanitize_filename` substitutes the characters matched by the regex
`[<>:"/\\|?*]` with an underscore, splits off the extension with
`os.path.splitext`, and when the whole name is longer than 255 characters
returns `base[:255-len(ext)] + ext`. Python strings are embedded as
`List Char`; after the substitution the name contains no path separator,
so `splitext` splits at the last dot unless all characters before that dot
are themselves dots (a leading-dots name has no extension). -/

/-- Characters matched by the regex character class `[<>:"/\\|?*]`. -/
def illegalChar (c : Char) : Bool :=
  c = '<' || c = '>' || c = ':' || c = '"' || c = '/' || c = '\\' ||
    c = '|' || c = '?' || c = '*'

/-- Per-character effect of `re.sub(r'[<>:"/\\|?*]', '_', filename)`. -/
def subChar (c : Char) : Char :=
  if illegalChar c then '_' else c

/-- Index of the last `'.'` in the list, if any (Python `str.rfind('.')`). -/
def rfindDot : List Char → Option Nat
  | [] => none
  | c :: cs =>
      match rfindDot cs with
      | some i => some (i + 1)
      | none => if c = '.' then some 0 else none

/-- Split position of `os.path.splitext` on a name without path
separators: split at the last dot, unless every character before that dot
is itself a dot, in which case there is no extension. -/
def splitextIdx (l : List Char) : Nat :=
  match rfindDot l with
  | none => l.length
  | some d => if (l.take d).all (fun c => c = '.') then l.length else d

/-- Python slice `l[:k]` for a possibly negative bound `k`. -/
def pySliceTo (l : List Char) (k : ℤ) : List Char :=
  if 0 ≤ k then l.take k.toNat else l.take (l.length - (-k).toNat)

/-- Embedding of `sanitize_filename`: `filename` is `s.map subChar`,
`base` its prefix up to the split position, `ext` the rest; the truncation
branch computes `base[:255 - len(ext)] + ext`. -/
def sanitize_filename (s : List Char) : List Char :=
  if 255 < (s.map subChar).length then
    pySliceTo ((s.map subChar).take (splitextIdx (s.map subChar)))
        (255 - (((s.map subChar).drop (splitextIdx (s.map subChar))).length : ℤ)) ++
      (s.map subChar).drop (splitextIdx (s.map subChar))
  else s.map subChar

/-- A name of 10 letters followed by a 301-character extension: the
truncation branch then computes `base[:255-301] = base[:-46] = ""` and
returns just the extension, a 301-character result that a second
application truncates differently. -/
def sanitizeCexInput : List Char :=
  List.replicate 10 'a' ++ '.' :: List.replicate 300 'b'

theorem illegalChar_subChar (c : Char) : illegalChar (subChar c) = false := by
  unfold subChar
  cases hb : illegalChar c
  · rw [if_neg (by simp [hb])]
    exact hb
  · rw [if_pos (by simp [hb])]
    decide

theorem subChar_idem (c : Char) : subChar (subChar c) = subChar c := by
  show (if illegalChar (subChar c) = true then '_' else subChar c) = subChar c
  rw [illegalChar_subChar]
  simp

theorem map_subChar_self (l : List Char) (h : ∀ c ∈ l, subChar c = c) :
    l.map subChar = l := by
  induction l with
  | nil => rfl
  | cons c cs ih =>
      rw [List.map_cons, h c (List.mem_cons_self c cs),
        ih (fun d hd => h d (List.mem_cons_of_mem c hd))]

theorem map_subChar_map_subChar (s : List Char) :
    (s.map subChar).map subChar = s.map subChar := by
  rw [List.map_map]
  exact List.map_congr_left (fun c _ => subChar_idem c)

theorem sanitize_length_le (s : List Char)
    (hext : ((s.map subChar).drop (splitextIdx (s.map subChar))).length ≤ 255) :
    (sanitize_filename s).length ≤ 255 := by
  unfold sanitize_filename
  by_cases hlen : 255 < (s.map subChar).length
  · rw [if_pos hlen, List.length_append]
    have hk : (0 : ℤ) ≤ 255 - (((s.map subChar).drop (splitextIdx (s.map subChar))).length : ℤ) := by
      omega
    rw [pySliceTo, if_pos hk]
    have htake := List.length_take
      (255 - (((s.map subChar).drop (splitextIdx (s.map subChar))).length : ℤ)).toNat
      ((s.map subChar).take (splitextIdx (s.map subChar)))
    omega
  · rw [if_neg hlen]
    omega

theorem mem_sanitize_mem_map (s : List Char) (c : Char)
    (hc : c ∈ sanitize_filename s) : c ∈ s.map subChar := by
  unfold sanitize_filename at hc
  by_cases hlen : 255 < (s.map subChar).length
  · rw [if_pos hlen] at hc
    rcases List.mem_append.mp hc with h | h
    · unfold pySliceTo at h
      split at h <;>
        exact List.mem_of_mem_take (List.mem_of_mem_take h)
    · exact List.mem_of_mem_drop h
  · rwa [if_neg hlen] at hc

set_option maxRecDepth 40000 in
/-- C9 counterexample: the claim "sanitize_filename is idempotent for every
string" is false at the concrete input `"a"*10 + "." + "b"*300`: the first
application returns the 301-character extension unchanged, and the second
application truncates it to 255 characters. -/
theorem C9_counterexample :
    sanitize_filename (sanitize_filename sanitizeCexInput) ≠
      sanitize_filename sanitizeCexInput := by
  decide

/-- C9 amended: sanitize_filename is idempotent on every string whose
computed extension is at most 255 characters long (in particular on every
name whose sanitized form fits in 255 characters); only a name with an
extension longer than 255 characters escapes the length clamp and gets
re-truncated by a second application. -/
theorem C9_sanitize_idempotent :
    ∀ s : List Char,
      ((s.map subChar).drop (splitextIdx (s.map subChar))).length ≤ 255 →
      sanitize_filename (sanitize_filename s) = sanitize_filename s := by
  intro s hext
  have hfix : (sanitize_filename s).map subChar = sanitize_filename s := by
    apply map_subChar_self
    intro c hc
    have hmem := mem_sanitize_mem_map s c hc
    rcases List.mem_map.mp hmem with ⟨a, -, rfl⟩
    exact subChar_idem a
  have hlen := sanitize_length_le s hext
  generalize hr : sanitize_filename s = r at hfix hlen ⊢
  unfold sanitize_filename
  rw [hfix, if_neg (by omega)]

/-- C9 witness: idempotence instantiated at the name "a.mp4". -/
theorem C9_sanitize_idempotent_witness :
    (((['a', '.', 'm', 'p', '4'] : List Char).map subChar).drop
        (splitextIdx ((['a', '.', 'm', 'p', '4'] : List Char).map subChar))).length ≤ 255 ∧
    sanitize_filename (sanitize_filename ['a', '.', 'm', 'p', '4']) =
      sanitize_filename ['a', '.', 'm', 'p', '4'] :=
  ⟨by decide, C9_sanitize_idempotent ['a', '.', 'm', 'p', '4'] (by decide)⟩

/-! ## check_gpu_support (main.py lines 1125-1177)

The method queries the encoders supported by ffmpeg, then checks NVIDIA
(`h264_nvenc`) first and AMD (`h264_amf`) second; a family is selected only
when its name occurs in the query output and its one-second synthetic test
encode exits with code 0. The whole body sits in a `try` whose `except`
returns `None`. The subprocess environment is abstracted as a `GpuEnv`:
each external call either raises (`Except.error`) or yields its result; the
query result is abstracted to the list of encoder names in its stdout. -/

inductive GpuType where
  | nvidia : GpuType
  | amd : GpuType
deriving DecidableEq, Repr

/-- Outcomes of the three external calls `check_gpu_support` can make. -/
structure GpuEnv where
  encodersQuery : Except Unit (List String)
  nvencTest : Except Unit Int
  amfTest : Except Unit Int

/-- The AMD branch (`if not gpu_type and 'h264_amf' in encoders`),
reached when NVIDIA was not selected. -/
def checkAmf (encoders : List String) (e : GpuEnv) : Except Unit (Option GpuType) :=
  if "h264_amf" ∈ encoders then
    match e.amfTest with
    | .error u => .error u
    | .ok code => if code = 0 then .ok (some .amd) else .ok none
  else .ok none

/-- Body of the `try` block of `check_gpu_support`: a raised exception
propagates as `Except.error`. -/
def check_gpu_support_body (e : GpuEnv) : Except Unit (Option GpuType) :=
  match e.encodersQuery with
  | .error u => .error u
  | .ok encoders =>
      if "h264_nvenc" ∈ encoders then
        match e.nvencTest with
        | .error u => .error u
        | .ok code =>
            if code = 0 then .ok (some .nvidia)
            else checkAmf encoders e
      else checkAmf encoders e

/-- Embedding of `check_gpu_support`: the surrounding `except` clause turns
any raised exception into `None` (the software profile). -/
def check_gpu_support (e : GpuEnv) : Option GpuType :=
  match check_gpu_support_body e with
  | .error _ => none
  | .ok g => g

/-- C4: NVIDIA is reported exactly when the query succeeded, listed
h264_nvenc, and the NVIDIA test encode exited 0; AMD is reported exactly
when the query succeeded, listed h264_amf, the AMD test exited 0, and the
NVIDIA family was checked first and failed cleanly (not listed, or its test
exited nonzero — an exception there aborts to software); any exception in
the query or in a reached test yields the software fallback; the function
never raises (it is total into Option GpuType). -/
theorem C4_gpu_negotiation :
    ∀ e : GpuEnv,
      (check_gpu_support e = some .nvidia ↔
        ∃ encoders, e.encodersQuery = .ok encoders ∧ "h264_nvenc" ∈ encoders ∧
          e.nvencTest = .ok 0) ∧
      (check_gpu_support e = some .amd ↔
        ∃ encoders, e.encodersQuery = .ok encoders ∧ "h264_amf" ∈ encoders ∧
          e.amfTest = .ok 0 ∧
          ("h264_nvenc" ∈ encoders → ∃ c, e.nvencTest = .ok c ∧ c ≠ 0)) ∧
      (e.encodersQuery = .error () → check_gpu_support e = none) ∧
      (∀ encoders, e.encodersQuery = .ok encoders → "h264_nvenc" ∈ encoders →
        e.nvencTest = .error () → check_gpu_support e = none) := by
  intro e
  obtain ⟨q, nv, am⟩ := e
  cases q with
  | error u =>
      cases u
      simp [check_gpu_support, check_gpu_support_body]
  | ok encoders =>
      by_cases hn : "h264_nvenc" ∈ encoders
      · cases nv with
        | error u =>
            cases u
            simp [check_gpu_support, check_gpu_support_body, hn]
        | ok code =>
            by_cases hc : code = 0
            · subst hc
              simp [check_gpu_support, check_gpu_support_body, hn]
            · by_cases ha : "h264_amf" ∈ encoders
              · cases am with
                | error u =>
                    cases u
                    simp [check_gpu_support, check_gpu_support_body, checkAmf, hn, hc, ha]
                | ok acode =>
                    by_cases hac : acode = 0
                    · subst hac
                      simp [check_gpu_support, check_gpu_support_body, checkAmf, hn, hc, ha]
                    · simp [check_gpu_support, check_gpu_support_body, checkAmf, hn, hc, ha, hac]
              · simp [check_gpu_support, check_gpu_support_body, checkAmf, hn, hc, ha]
      · by_cases ha : "h264_amf" ∈ encoders
        · cases am with
          | error u =>
              cases u
              simp [check_gpu_support, check_gpu_support_body, checkAmf, hn, ha]
          | ok acode =>
              by_cases hac : acode = 0
              · subst hac
                simp [check_gpu_support, check_gpu_support_body, checkAmf, hn, ha]
              · simp [check_gpu_support, check_gpu_support_body, checkAmf, hn, ha, hac]
        · simp [check_gpu_support, check_gpu_support_body, checkAmf, hn, ha]

/-- C4 witness: negotiation at an environment where NVIDIA is listed but
its test exits 1, and AMD is listed and its test exits 0. -/
theorem C4_gpu_negotiation_witness :
    (check_gpu_support ⟨.ok ["h264_nvenc", "h264_amf"], .ok 1, .ok 0⟩ = some .nvidia ↔
      ∃ encoders, (Except.ok ["h264_nvenc", "h264_amf"] : Except Unit (List String))
          = .ok encoders ∧ "h264_nvenc" ∈ encoders ∧
        (Except.ok 1 : Except Unit Int) = .ok 0) ∧
    (check_gpu_support ⟨.ok ["h264_nvenc", "h264_amf"], .ok 1, .ok 0⟩ = some .amd ↔
      ∃ encoders, (Except.ok ["h264_nvenc", "h264_amf"] : Except Unit (List String))
          = .ok encoders ∧ "h264_amf" ∈ encoders ∧
        (Except.ok 0 : Except Unit Int) = .ok 0 ∧
        ("h264_nvenc" ∈ encoders → ∃ c, (Except.ok 1 : Except Unit Int) = .ok c ∧ c ≠ 0)) ∧
    ((Except.ok ["h264_nvenc", "h264_amf"] : Except Unit (List String)) = .error () →
      check_gpu_support ⟨.ok ["h264_nvenc", "h264_amf"], .ok 1, .ok 0⟩ = none) ∧
    (∀ encoders, (Except.ok ["h264_nvenc", "h264_amf"] : Except Unit (List String))
        = .ok encoders → "h264_nvenc" ∈ encoders →
      (Except.ok 1 : Except Unit Int) = .error () →
      check_gpu_support ⟨.ok ["h264_nvenc", "h264_amf"], .ok 1, .ok 0⟩ = none) :=
  C4_gpu_negotiation ⟨.ok ["h264_nvenc", "h264_amf"], .ok 1, .ok 0⟩

/-! ## process_video: exit paths, output verification and cleanup
(main.py lines 630-889)

The method body (inside the semaphore `with` block) is a straight-line
sequence of fallible steps; the environment of one call is abstracted as a
`JobEnv`. The observable state the claims speak about — whether the job's
key is in `current_processes` and what file sits at the output path — is a
`ProcState` threaded through explicit cleanup actions:
the inner `finally` (lines 844-854) removes the key before verification on
every path out of the monitor loop; the `except` clause (lines 877-885)
deletes the output file, if it exists, on any raised exception; the outer
`finally` (lines 886-889) removes the key again. A stop request during the
monitor loop (lines 814-821) terminates the process and falls through to
the same return-code check, so cancellation is the `stopRequested` scenario
of the same flow. File deletion is modelled as succeeding (the source wraps
it in `try/except: pass`, so a deletion error would be swallowed, not
propagated). -/

inductive JobErr where
  | dirError
  | probeError
  | spawnError
  | runtimeFailure
  | integrityMissing
  | integrityEmpty
deriving DecidableEq, Repr

inductive JobOutcome where
  | earlyReturn
  | success
  | failed (e : JobErr)
deriving DecidableEq, Repr

/-- The environment one `process_video` call runs against: the
`self.processing` flag at entry (line 633), whether `os.makedirs`
succeeds (line 659), the probed dimensions (line 699), whether
`subprocess.Popen` succeeds (line 796), whether a stop was requested while
the process ran, the process exit code, and the output-file state (size)
after the process exited and the one-second settle delay. -/
structure JobEnv where
  processingAtEntry : Bool
  mkdirOk : Bool
  dims : Option (Nat × Nat)
  spawnOk : Bool
  stopRequested : Bool
  exitCode : Int
  fileAfterExit : Option Nat

structure ProcState where
  keyInMap : Bool
  outFile : Option Nat
deriving DecidableEq, Repr

/-- `self.current_processes[process_key] = process` (line 806). -/
def registerKey (s : ProcState) : ProcState :=
  { s with keyInMap := true }

/-- `if process_key in self.current_processes: del ...` (lines 853, 888). -/
def removeKey (s : ProcState) : ProcState :=
  if s.keyInMap then { s with keyInMap := false } else s

/-- `if os.path.exists(output_path): os.remove(output_path)` (removal also
at line 870 for the empty-output case). -/
def removeFileIfExists (s : ProcState) : ProcState :=
  match s.outFile with
  | none => s
  | some _ => { s with outFile := none }

/-- Monitor loop, inner `finally`, and output verification (lines 808-875),
entered with the process spawned and the key registered. Whether the loop
ended because the process finished or because a stop request terminated it
(lines 814-821), the flow falls through to the same return-code check; the
inner `finally` has already removed the key when verification runs. -/
def afterSpawn (env : JobEnv) (s : ProcState) : JobOutcome × ProcState :=
  let s1 := removeKey { s with outFile := env.fileAfterExit }
  if env.exitCode ≠ 0 then (.failed .runtimeFailure, s1)
  else
    match s1.outFile with
    | none => (.failed .integrityMissing, s1)
    | some 0 => (.failed .integrityEmpty, removeFileIfExists s1)
    | some (_ + 1) => (.success, s1)

/-- Embedding of `process_video` (body inside the semaphore): the prefix
checks, the spawn, then the `except` clause (delete the output file on any
raised exception) and the outer `finally` (remove the key) on every path.
When the early return or a pre-spawn exception exits the method, the key
was never registered and no output file was created. -/
def process_video_run (env : JobEnv) : JobOutcome × ProcState :=
  let s0 : ProcState := ⟨false, none⟩
  let body : JobOutcome × ProcState :=
    if env.processingAtEntry = false then (.earlyReturn, s0)
    else if env.mkdirOk = false then (.failed .dirError, s0)
    else
      match env.dims with
      | none => (.failed .probeError, s0)
      | some _ =>
          if env.spawnOk = false then (.failed .spawnError, s0)
          else afterSpawn env (registerKey s0)
  match body with
  | (.failed e, s) => (.failed e, removeKey (removeFileIfExists s))
  | (o, s) => (o, removeKey s)

/-- C6: on every exit path of `process_video` — success, failure,
cancellation, early return, or an exception raised anywhere in the body —
the job's key is absent from the active-process map afterwards, and on any
non-success outcome no file remains at the output path (deletions are
modelled as succeeding, matching the swallowed `try/except: pass`). -/
theorem C6_cleanup_every_path :
    ∀ env : JobEnv,
      (process_video_run env).2.keyInMap = false ∧
      ((process_video_run env).1 ≠ .success →
        (process_video_run env).2.outFile = none) := by
  intro env
  unfold process_video_run afterSpawn registerKey removeKey removeFileIfExists
  rcases env with ⟨p, mk, dims, sp, st, ec, f⟩
  dsimp only
  by_cases hp : p = false
  · simp [hp]
  · by_cases hmk : mk = false
    · simp [hp, hmk]
    · cases dims with
      | none => simp [hp, hmk]
      | some d =>
          by_cases hsp : sp = false
          · simp [hp, hmk, hsp]
          · by_cases hec : ec ≠ 0
            · cases f <;> simp [hp, hmk, hsp, hec]
            · cases f with
              | none => simp [hp, hmk, hsp, hec]
              | some n =>
                  cases n with
                  | zero => simp [hp, hmk, hsp, hec]
                  | succ m => simp [hp, hmk, hsp, hec]

/-- C6 witness: cleanup at a cancelled job whose terminated process
reported exit code -15. -/
theorem C6_cleanup_every_path_witness :
    (process_video_run ⟨true, true, some (1280, 720), true, true, -15, some 7⟩).2.keyInMap
        = false ∧
    ((process_video_run ⟨true, true, some (1280, 720), true, true, -15, some 7⟩).1 ≠ .success →
      (process_video_run ⟨true, true, some (1280, 720), true, true, -15, some 7⟩).2.outFile
        = none) :=
  C6_cleanup_every_path ⟨true, true, some (1280, 720), true, true, -15, some 7⟩

/-- C5: a job whose process exits 0 but whose output file is, after the
settle delay, absent or zero-length, ends in an output-integrity failure
and leaves no file at the output path. -/
theorem C5_output_integrity :
    ∀ env : JobEnv,
      env.processingAtEntry = true → env.mkdirOk = true → env.dims ≠ none →
      env.spawnOk = true → env.exitCode = 0 →
      (env.fileAfterExit = none ∨ env.fileAfterExit = some 0) →
      ((process_video_run env).1 = .failed .integrityMissing ∨
        (process_video_run env).1 = .failed .integrityEmpty) ∧
      (process_video_run env).2.outFile = none := by
  intro env hp hmk hd hsp hec hf
  rcases env with ⟨p, mk, dims, sp, st, ec, f⟩
  simp only at hp hmk hd hsp hec hf
  subst hp hmk hsp hec
  unfold process_video_run afterSpawn registerKey removeKey removeFileIfExists
  cases dims with
  | none => exact absurd rfl hd
  | some d =>
      rcases hf with hf | hf <;> subst hf <;> simp

/-- C5 witness: exit code 0 with a zero-length output file. -/
theorem C5_output_integrity_witness :
    ((process_video_run ⟨true, true, some (1920, 1080), true, false, 0, some 0⟩).1
          = .failed .integrityMissing ∨
      (process_video_run ⟨true, true, some (1920, 1080), true, false, 0, some 0⟩).1
          = .failed .integrityEmpty) ∧
    (process_video_run ⟨true, true, some (1920, 1080), true, false, 0, some 0⟩).2.outFile
        = none :=
  C5_output_integrity ⟨true, true, some (1920, 1080), true, false, 0, some 0⟩
    rfl rfl (by simp) rfl rfl (Or.inr rfl)

/-! ## _process_videos_thread: dispatch discipline (main.py lines 891-941)

The driver iterates the main collection in order; for each main video it
checks the `self.processing` flag (break), the backing file (skip), and the
suitable-overlay set (skip); otherwise it starts the job thread and calls
`thread.join()` before the next iteration, so the job body runs to
completion between its start and the next dispatch. The embedding records
the driver's behaviour as a trace of events; a job contributes its start
and its completion as adjacent events because the only statements between
`thread.start()` and `thread.join()` are the driver's own progress
bookkeeping, not another job. The `self.processing` flag can be flipped
concurrently by `stop_processing`; `procFlag n` is its value observed at
iteration `n`. -/

inductive DriverEvent where
  | jobStart (m : String) : DriverEvent
  | jobEnd (m : String) : DriverEvent
  | skipMissing (m : String) : DriverEvent
  | skipNoOverlay (m : String) : DriverEvent
deriving DecidableEq, Repr

structure DriverEnv where
  fileExists : String → Bool
  probe : String → ℚ
  overlays : List String
  procFlag : Nat → Bool

/-- Trace of `_process_videos_thread` from iteration `n` over the
remaining main videos. -/
def driverTrace (env : DriverEnv) (mains : List String) (n : Nat) : List DriverEvent :=
  match mains with
  | [] => []
  | m :: rest =>
      if env.procFlag n = false then []
      else if env.fileExists m = false then
        .skipMissing m :: driverTrace env rest (n + 1)
      else if get_suitable_overlay_videos env.probe env.overlays m = [] then
        .skipNoOverlay m :: driverTrace env rest (n + 1)
      else
        .jobStart m :: .jobEnd m :: driverTrace env rest (n + 1)

/-- The main videos whose jobs the driver started, in dispatch order. -/
def startedMains : List DriverEvent → List String
  | [] => []
  | .jobStart m :: es => m :: startedMains es
  | .jobEnd _ :: es => startedMains es
  | .skipMissing _ :: es => startedMains es
  | .skipNoOverlay _ :: es => startedMains es

/-- Shape of a driver trace: a sequence of blocks, each either a single
skip event or a job's start immediately followed by its end. -/
inductive SeqTrace : List DriverEvent → Prop where
  | nil : SeqTrace []
  | skipMissing (m : String) (t : List DriverEvent) :
      SeqTrace t → SeqTrace (.skipMissing m :: t)
  | skipNoOverlay (m : String) (t : List DriverEvent) :
      SeqTrace t → SeqTrace (.skipNoOverlay m :: t)
  | job (m : String) (t : List DriverEvent) :
      SeqTrace t → SeqTrace (.jobStart m :: .jobEnd m :: t)

theorem driverTrace_seq (env : DriverEnv) :
    ∀ (mains : List String) (n : Nat), SeqTrace (driverTrace env mains n) := by
  intro mains
  induction mains with
  | nil =>
      intro n
      exact SeqTrace.nil
  | cons m rest ih =>
      intro n
      show SeqTrace (driverTrace env (m :: rest) n)
      unfold driverTrace
      by_cases hflag : env.procFlag n = false
      · simp only [if_pos hflag]
        exact SeqTrace.nil
      · simp only [if_neg hflag]
        by_cases hex : env.fileExists m = false
        · simp only [if_pos hex]
          exact SeqTrace.skipMissing m _ (ih (n + 1))
        · simp only [if_neg hex]
          by_cases hsuit : get_suitable_overlay_videos env.probe env.overlays m = []
          · simp only [if_pos hsuit]
            exact SeqTrace.skipNoOverlay m _ (ih (n + 1))
          · simp only [if_neg hsuit]
            exact SeqTrace.job m _ (ih (n + 1))

theorem seqTrace_start_end {t : List DriverEvent} (ht : SeqTrace t) :
    ∀ (i : Nat) (a : String) (hi : i < t.length),
      t[i] = .jobStart a →
      ∃ h2 : i + 1 < t.length, t[i + 1] = .jobEnd a := by
  induction ht with
  | nil =>
      intro i a hi
      simp at hi
  | skipMissing m t ht ih =>
      intro i a hi hstart
      cases i with
      | zero => simp at hstart
      | succ i0 =>
          have hi0 : i0 < t.length := by simpa using hi
          obtain ⟨h2, he⟩ := ih i0 a hi0 (by simpa using hstart)
          exact ⟨by simpa using Nat.succ_lt_succ h2, by simpa using he⟩
  | skipNoOverlay m t ht ih =>
      intro i a hi hstart
      cases i with
      | zero => simp at hstart
      | succ i0 =>
          have hi0 : i0 < t.length := by simpa using hi
          obtain ⟨h2, he⟩ := ih i0 a hi0 (by simpa using hstart)
          exact ⟨by simpa using Nat.succ_lt_succ h2, by simpa using he⟩
  | job m t ht ih =>
      intro i a hi hstart
      cases i with
      | zero =>
          simp only [List.getElem_cons_zero, DriverEvent.jobStart.injEq] at hstart
          subst hstart
          exact ⟨by simp, by simp⟩
      | succ i0 =>
          cases i0 with
          | zero => simp at hstart
          | succ i1 =>
              have hi1 : i1 < t.length := by
                simpa [Nat.succ_lt_succ_iff] using hi
              obtain ⟨h2, he⟩ := ih i1 a hi1 (by simpa using hstart)
              refine ⟨by simpa [Nat.succ_lt_succ_iff] using h2, by simpa using he⟩

theorem startedMains_sublist (env : DriverEnv) :
    ∀ (mains : List String) (n : Nat),
      (startedMains (driverTrace env mains n)).Sublist mains := by
  intro mains
  induction mains with
  | nil =>
      intro n
      simp [driverTrace, startedMains]
  | cons m rest ih =>
      intro n
      show (startedMains (driverTrace env (m :: rest) n)).Sublist (m :: rest)
      unfold driverTrace
      by_cases hflag : env.procFlag n = false
      · simp [hflag, startedMains]
      · simp only [if_neg hflag]
        by_cases hex : env.fileExists m = false
        · simp only [if_pos hex, startedMains]
          exact (ih (n + 1)).cons m
        · simp only [if_neg hex]
          by_cases hsuit : get_suitable_overlay_videos env.probe env.overlays m = []
          · simp only [if_pos hsuit, startedMains]
            exact (ih (n + 1)).cons m
          · simp only [if_neg hsuit, startedMains]
            exact (ih (n + 1)).cons₂ m

/-- C2: the driver starts jobs for main assets in collection order (the
started mains form a sublist of the collection), and between any two job
starts in the trace the earlier job's completion occurs — each main asset's
job completes before the driver starts the next main asset's job, so no two
job bodies of the batch overlap. -/
theorem C2_sequential_dispatch :
    ∀ (env : DriverEnv) (mains : List String) (n : Nat),
      (startedMains (driverTrace env mains n)).Sublist mains ∧
      ∀ (i j : Nat) (a b : String)
        (hi : i < (driverTrace env mains n).length)
        (hj : j < (driverTrace env mains n).length),
        i < j →
        (driverTrace env mains n)[i] = .jobStart a →
        (driverTrace env mains n)[j] = .jobStart b →
        ∃ (k : Nat) (hk : k < (driverTrace env mains n).length),
          i < k ∧ k < j ∧ (driverTrace env mains n)[k] = .jobEnd a := by
  intro env mains n
  refine ⟨startedMains_sublist env mains n, ?_⟩
  intro i j a b hi hj hij hsa hsb
  obtain ⟨h2, hend⟩ := seqTrace_start_end (driverTrace_seq env mains n) i a hi hsa
  refine ⟨i + 1, h2, Nat.lt_succ_self i, ?_, hend⟩
  rcases Nat.lt_or_ge (i + 1) j with hlt | hge
  · exact hlt
  · exfalso
    have hj1 : j = i + 1 := le_antisymm hge hij
    subst hj1
    rw [hend] at hsb
    cases hsb

/-- Concrete driver environment for the C2 witness: two main videos of
duration 10 and one overlay of duration 20, nothing missing, never
stopped. -/
def driverEnvExample : DriverEnv :=
  ⟨fun _ => true,
    fun s => if s = "A" then 10 else if s = "B" then 10 else if s = "o" then 20 else 0,
    ["o"], fun _ => true⟩

unseal Rat.mul in
/-- C2 witness: in the two-job trace of the example environment the first
job's end lies strictly between the two starts. -/
theorem C2_sequential_dispatch_witness :
    (startedMains (driverTrace driverEnvExample ["A", "B"] 0)).Sublist ["A", "B"] ∧
    ∃ (hi : 0 < (driverTrace driverEnvExample ["A", "B"] 0).length)
      (hj : 2 < (driverTrace driverEnvExample ["A", "B"] 0).length),
      (driverTrace driverEnvExample ["A", "B"] 0)[0] = .jobStart "A" ∧
      (driverTrace driverEnvExample ["A", "B"] 0)[2] = .jobStart "B" ∧
      ∃ (k : Nat) (hk : k < (driverTrace driverEnvExample ["A", "B"] 0).length),
        0 < k ∧ k < 2 ∧
        (driverTrace driverEnvExample ["A", "B"] 0)[k] = .jobEnd "A" :=
  ⟨(C2_sequential_dispatch driverEnvExample ["A", "B"] 0).1,
    by decide, by decide, by decide, by decide,
    (C2_sequential_dispatch driverEnvExample ["A", "B"] 0).2 0 2 "A" "B"
      (by decide) (by decide) (by decide) (by decide) (by decide)⟩

/-! ## Concurrency bound: semaphore and current_processes
(main.py lines 196-197, 630-634, 805-806, 844-854, 886-889, 937, 967)

`process_video` runs its whole body inside `with self.processing_semaphore`
(a counting semaphore initialised to `max_concurrent_processes = k`); the
`current_processes[process_key] = process` registration at line 806 happens
inside that block, and both `finally` clauses delete the key while the
job still holds (inner) or after it held (outer, reached after the `with`
exits — but by then the inner `finally` has already deleted the key, so
deletion always precedes slot release). The transition system below has one
phase per job of a batch: `hasSlot` (the job holds a semaphore slot) and
`inMap` (its key is in `current_processes`). `acquire` is guarded by the
semaphore count, `register` requires a held slot, `release` happens only
after the key is gone, and `clearAll` models `current_processes.clear()`
in `stop_processing` and the driver's `finally`. -/

structure JobPhase where
  hasSlot : Bool
  inMap : Bool
deriving DecidableEq, Repr

/-- Number of semaphore slots currently held. -/
def countSlots (s : List JobPhase) : Nat :=
  s.countP (fun p => p.hasSlot)

/-- Number of entries in `current_processes`. -/
def countInMap (s : List JobPhase) : Nat :=
  s.countP (fun p => p.inMap)

inductive BatchStep (k : Nat) : List JobPhase → List JobPhase → Prop where
  | acquire (pre post : List JobPhase) (m : Bool)
      (hguard : countSlots (pre ++ ⟨false, m⟩ :: post) < k) :
      BatchStep k (pre ++ ⟨false, m⟩ :: post) (pre ++ ⟨true, m⟩ :: post)
  | register (pre post : List JobPhase) (m : Bool) :
      BatchStep k (pre ++ ⟨true, m⟩ :: post) (pre ++ ⟨true, true⟩ :: post)
  | unregister (pre post : List JobPhase) (b m : Bool) :
      BatchStep k (pre ++ ⟨b, m⟩ :: post) (pre ++ ⟨b, false⟩ :: post)
  | release (pre post : List JobPhase) :
      BatchStep k (pre ++ ⟨true, false⟩ :: post) (pre ++ ⟨false, false⟩ :: post)
  | clearAll (s : List JobPhase) :
      BatchStep k s (s.map (fun p => ⟨p.hasSlot, false⟩))

/-- States reachable by a batch of `n` jobs under concurrency limit `k`. -/
inductive BatchReachable (k n : Nat) : List JobPhase → Prop where
  | init : BatchReachable k n (List.replicate n ⟨false, false⟩)
  | step {s t : List JobPhase} :
      BatchReachable k n s → BatchStep k s t → BatchReachable k n t

/-- The invariant: a key is registered only by a slot holder, and at most
`k` slots are held. -/
def BatchInv (k : Nat) (s : List JobPhase) : Prop :=
  (∀ p ∈ s, p.inMap = true → p.hasSlot = true) ∧ countSlots s ≤ k

theorem batchInv_init (k n : Nat) : BatchInv k (List.replicate n ⟨false, false⟩) := by
  constructor
  · intro p hp
    rw [List.eq_of_mem_replicate hp]
    intro h
    cases h
  · unfold countSlots
    rw [List.countP_eq_zero.mpr]
    · exact Nat.zero_le k
    · intro p hp
      rw [List.eq_of_mem_replicate hp]
      decide

theorem batchInv_step {k : Nat} {s t : List JobPhase}
    (hs : BatchInv k s) (hstep : BatchStep k s t) : BatchInv k t := by
  obtain ⟨hmap, hcount⟩ := hs
  cases hstep with
  | acquire pre post m hguard =>
      constructor
      · intro p hp
        rcases List.mem_append.mp hp with h | h
        · exact hmap p (List.mem_append.mpr (Or.inl h))
        · rcases List.mem_cons.mp h with rfl | h
          · intro
            rfl
          · exact hmap p (List.mem_append.mpr (Or.inr (List.mem_cons_of_mem _ h)))
      · simp only [countSlots, List.countP_append, List.countP_cons] at hguard ⊢
        try simp at hguard ⊢
        omega
  | register pre post m =>
      constructor
      · intro p hp
        rcases List.mem_append.mp hp with h | h
        · exact hmap p (List.mem_append.mpr (Or.inl h))
        · rcases List.mem_cons.mp h with rfl | h
          · intro
            rfl
          · exact hmap p (List.mem_append.mpr (Or.inr (List.mem_cons_of_mem _ h)))
      · simp only [countSlots, List.countP_append, List.countP_cons] at hcount ⊢
        try simp at hcount ⊢
        omega
  | unregister pre post b m =>
      constructor
      · intro p hp
        rcases List.mem_append.mp hp with h | h
        · exact hmap p (List.mem_append.mpr (Or.inl h))
        · rcases List.mem_cons.mp h with rfl | h
          · intro h
            cases h
          · exact hmap p (List.mem_append.mpr (Or.inr (List.mem_cons_of_mem _ h)))
      · simp only [countSlots, List.countP_append, List.countP_cons] at hcount ⊢
        try simp at hcount ⊢
        omega
  | release pre post =>
      constructor
      · intro p hp
        rcases List.mem_append.mp hp with h | h
        · exact hmap p (List.mem_append.mpr (Or.inl h))
        · rcases List.mem_cons.mp h with rfl | h
          · intro h
            cases h
          · exact hmap p (List.mem_append.mpr (Or.inr (List.mem_cons_of_mem _ h)))
      · simp only [countSlots, List.countP_append, List.countP_cons] at hcount ⊢
        try simp at hcount ⊢
        omega
  | clearAll s =>
      constructor
      · intro p hp
        rcases List.mem_map.mp hp with ⟨q, -, rfl⟩
        intro h
        cases h
      · unfold countSlots at hcount ⊢
        rw [List.countP_map]
        exact hcount

theorem batchInv_reachable {k n : Nat} {s : List JobPhase}
    (h : BatchReachable k n s) : BatchInv k s := by
  induction h with
  | init => exact batchInv_init k n
  | step _ hstep ih => exact batchInv_step ih hstep

/-- C3: in every reachable state of a batch run with concurrency limit k,
the active-process map has at most k entries, and every job whose key is
registered in the map holds a semaphore slot (the registration step
requires a held slot, and the key is deleted before the slot is
released). -/
theorem C3_concurrency_bound :
    ∀ (k n : Nat) (s : List JobPhase), BatchReachable k n s →
      countInMap s ≤ k ∧ ∀ p ∈ s, p.inMap = true → p.hasSlot = true := by
  intro k n s h
  obtain ⟨hmap, hcount⟩ := batchInv_reachable h
  refine ⟨?_, hmap⟩
  calc countInMap s ≤ countSlots s := by
        unfold countInMap countSlots
        exact List.countP_mono_left (fun p hp hm => hmap p hp hm)
    _ ≤ k := hcount

/-- C3 witness: a two-job batch with limit 2, after one job acquired its
slot and registered its process. -/
theorem C3_concurrency_bound_witness :
    countInMap [⟨true, true⟩, ⟨false, false⟩] ≤ 2 ∧
    ∀ p ∈ [(⟨true, true⟩ : JobPhase), ⟨false, false⟩], p.inMap = true → p.hasSlot = true :=
  C3_concurrency_bound 2 2 [⟨true, true⟩, ⟨false, false⟩]
    (BatchReachable.step
      (BatchReachable.step BatchReachable.init
        (BatchStep.acquire [] [⟨false, false⟩] false (by decide)))
      (BatchStep.register [] [⟨false, false⟩] false))

/-! ## remove_selected_video / remove_selected_overlay
(main.py lines 1052-1070)

Both handlers iterate `reversed(selected)` — the selection indices in
strictly descending order, so each deletion leaves the smaller indices
valid. `remove_selected_video` only pops from `main_video_paths`;
`remove_selected_overlay` reads the path at the index, deletes its entry
from `overlay_video_durations` (guarded by `if path in ...`, a no-op when
absent) and then deletes the path. The duration dicts are embedded as
association lists; `del durations[path]` removes the entry with that key. -/

structure AppCollections where
  main_video_paths : List String
  main_video_durations : List (String × ℚ)
  overlay_video_paths : List String
  overlay_video_durations : List (String × ℚ)
deriving DecidableEq, Repr

/-- `if path in durations: del durations[path]`. -/
def delKey (d : List (String × ℚ)) (p : String) : List (String × ℚ) :=
  d.filter (fun kv => kv.1 != p)

/-- Embedding of `remove_selected_video`: `idxs` is `reversed(selected)`,
strictly descending; each step is `self.main_video_paths.pop(index)`.
The duration dict is not touched. -/
def remove_selected_video (st : AppCollections) (idxs : List Nat) : AppCollections :=
  idxs.foldl (fun s i =>
    { s with main_video_paths := s.main_video_paths.eraseIdx i }) st

/-- Embedding of `remove_selected_overlay`: each step reads
`path = self.overlay_video_paths[index]`, deletes `durations[path]`, then
deletes `paths[index]`. -/
def remove_selected_overlay (st : AppCollections) (idxs : List Nat) : AppCollections :=
  idxs.foldl (fun s i =>
    { s with
      overlay_video_paths := s.overlay_video_paths.eraseIdx i,
      overlay_video_durations :=
        delKey s.overlay_video_durations (s.overlay_video_paths.getD i "") }) st

theorem remove_video_frame :
    ∀ (idxs : List Nat) (st : AppCollections),
      (remove_selected_video st idxs).main_video_durations = st.main_video_durations ∧
      (remove_selected_video st idxs).overlay_video_paths = st.overlay_video_paths ∧
      (remove_selected_video st idxs).overlay_video_durations = st.overlay_video_durations := by
  intro idxs
  induction idxs with
  | nil =>
      intro st
      exact ⟨rfl, rfl, rfl⟩
  | cons j rest ih =>
      intro st
      exact ih { st with main_video_paths := st.main_video_paths.eraseIdx j }

theorem remove_video_paths_sublist :
    ∀ (idxs : List Nat) (st : AppCollections),
      (remove_selected_video st idxs).main_video_paths.Sublist st.main_video_paths := by
  intro idxs
  induction idxs with
  | nil =>
      intro st
      exact List.Sublist.refl _
  | cons j rest ih =>
      intro st
      exact (ih { st with main_video_paths := st.main_video_paths.eraseIdx j }).trans
        (List.eraseIdx_sublist _ j)

theorem remove_overlay_frame :
    ∀ (idxs : List Nat) (st : AppCollections),
      (remove_selected_overlay st idxs).main_video_paths = st.main_video_paths ∧
      (remove_selected_overlay st idxs).main_video_durations = st.main_video_durations := by
  intro idxs
  induction idxs with
  | nil =>
      intro st
      exact ⟨rfl, rfl⟩
  | cons j rest ih =>
      intro st
      exact ih _

theorem remove_overlay_sublists :
    ∀ (idxs : List Nat) (st : AppCollections),
      (remove_selected_overlay st idxs).overlay_video_paths.Sublist st.overlay_video_paths ∧
      (remove_selected_overlay st idxs).overlay_video_durations.Sublist
        st.overlay_video_durations := by
  intro idxs
  induction idxs with
  | nil =>
      intro st
      exact ⟨List.Sublist.refl _, List.Sublist.refl _⟩
  | cons j rest ih =>
      intro st
      refine ⟨(ih _).1.trans (List.eraseIdx_sublist _ j), (ih _).2.trans ?_⟩
      exact List.filter_sublist _

theorem getD_not_mem_eraseIdx {l : List String} (hl : l.Nodup) (j : Nat)
    (h : j < l.length) : l.getD j "" ∉ l.eraseIdx j := by
  rw [List.getD_eq_getElem l "" h, ← hl.erase_getElem j h]
  exact hl.not_mem_erase

theorem getD_eraseIdx_of_lt (l : List String) (i j : Nat) (hij : i < j)
    (hi : i < (l.eraseIdx j).length) :
    (l.eraseIdx j).getD i "" = l.getD i "" := by
  have hi2 : i < l.length := Nat.lt_of_lt_of_le hi (List.length_eraseIdx_le l j)
  rw [List.getD_eq_getElem _ "" hi, List.getD_eq_getElem l "" hi2]
  exact List.getElem_eraseIdx_of_lt l j i hi hij

theorem remove_video_not_mem :
    ∀ (idxs : List Nat) (st : AppCollections),
      st.main_video_paths.Nodup → List.Pairwise (fun a b => a > b) idxs →
      (∀ i ∈ idxs, i < st.main_video_paths.length) →
      ∀ i ∈ idxs,
        st.main_video_paths.getD i "" ∉ (remove_selected_video st idxs).main_video_paths := by
  intro idxs
  induction idxs with
  | nil =>
      intro st _ _ _ i hi
      cases hi
  | cons j rest ih =>
      intro st hnd hpair hvalid i hi
      have hjlen : j < st.main_video_paths.length := hvalid j (List.mem_cons_self j rest)
      have hstep : remove_selected_video st (j :: rest) =
          remove_selected_video
            { st with main_video_paths := st.main_video_paths.eraseIdx j } rest := rfl
      set st2 : AppCollections :=
        { st with main_video_paths := st.main_video_paths.eraseIdx j } with hst2
      have hnd2 : st2.main_video_paths.Nodup :=
        (List.eraseIdx_sublist _ j).nodup hnd
      have hlen2 : st2.main_video_paths.length = st.main_video_paths.length - 1 := by
        show (st.main_video_paths.eraseIdx j).length = st.main_video_paths.length - 1
        rw [List.length_eraseIdx]
        simp [hjlen]
      rcases List.mem_cons.mp hi with rfl | hirest
      · rw [hstep]
        intro hmem
        exact getD_not_mem_eraseIdx hnd i hjlen
          (((remove_video_paths_sublist rest st2).mem hmem))
      · have hij : i < j := List.rel_of_pairwise_cons hpair hirest
        have hival2 : i < st2.main_video_paths.length := by
          omega
        have hgd : st2.main_video_paths.getD i "" = st.main_video_paths.getD i "" :=
          getD_eraseIdx_of_lt st.main_video_paths i j hij hival2
        rw [hstep, ← hgd]
        exact ih st2 hnd2 (List.Pairwise.of_cons hpair)
          (fun x hx => by
            have := hvalid x (List.mem_cons_of_mem j hx)
            have hxj : x < j := List.rel_of_pairwise_cons hpair hx
            omega) i hirest

theorem remove_overlay_not_mem :
    ∀ (idxs : List Nat) (st : AppCollections),
      st.overlay_video_paths.Nodup → List.Pairwise (fun a b => a > b) idxs →
      (∀ i ∈ idxs, i < st.overlay_video_paths.length) →
      ∀ i ∈ idxs,
        st.overlay_video_paths.getD i "" ∉
            (remove_selected_overlay st idxs).overlay_video_paths ∧
        ∀ kv ∈ (remove_selected_overlay st idxs).overlay_video_durations,
          kv.1 ≠ st.overlay_video_paths.getD i "" := by
  intro idxs
  induction idxs with
  | nil =>
      intro st _ _ _ i hi
      cases hi
  | cons j rest ih =>
      intro st hnd hpair hvalid i hi
      have hjlen : j < st.overlay_video_paths.length := hvalid j (List.mem_cons_self j rest)
      have hstep : remove_selected_overlay st (j :: rest) =
          remove_selected_overlay
            { st with
              overlay_video_paths := st.overlay_video_paths.eraseIdx j,
              overlay_video_durations :=
                delKey st.overlay_video_durations
                  (st.overlay_video_paths.getD j "") } rest := rfl
      set st2 : AppCollections :=
        { st with
          overlay_video_paths := st.overlay_video_paths.eraseIdx j,
          overlay_video_durations :=
            delKey st.overlay_video_durations
              (st.overlay_video_paths.getD j "") } with hst2
      have hnd2 : st2.overlay_video_paths.Nodup :=
        (List.eraseIdx_sublist _ j).nodup hnd
      have hlen2 : st2.overlay_video_paths.length = st.overlay_video_paths.length - 1 := by
        show (st.overlay_video_paths.eraseIdx j).length = st.overlay_video_paths.length - 1
        rw [List.length_eraseIdx]
        simp [hjlen]
      rcases List.mem_cons.mp hi with rfl | hirest
      · constructor
        · rw [hstep]
          intro hmem
          exact getD_not_mem_eraseIdx hnd i hjlen
            ((remove_overlay_sublists rest st2).1.mem hmem)
        · rw [hstep]
          intro kv hkv
          have hkv2 : kv ∈ st2.overlay_video_durations :=
            (remove_overlay_sublists rest st2).2.mem hkv
          have : kv ∈ delKey st.overlay_video_durations
              (st.overlay_video_paths.getD i "") := hkv2
          have hne := (List.mem_filter.mp this).2
          simpa using hne
      · have hij : i < j := List.rel_of_pairwise_cons hpair hirest
        have hival2 : i < st2.overlay_video_paths.length := by
          omega
        have hgd : st2.overlay_video_paths.getD i "" = st.overlay_video_paths.getD i "" :=
          getD_eraseIdx_of_lt st.overlay_video_paths i j hij hival2
        rw [hstep, ← hgd]
        exact ih st2 hnd2 (List.Pairwise.of_cons hpair)
          (fun x hx => by
            have := hvalid x (List.mem_cons_of_mem j hx)
            have hxj : x < j := List.rel_of_pairwise_cons hpair hx
            omega) i hirest

/-- C10: removing selected overlay assets deletes each removed path from
both the overlay collection list and the overlay duration index, while
removing selected main assets leaves the main duration index (and the
overlay collections) untouched and deletes the path only from the main
collection list — concretely, after removing the only main video "v", the
main duration index still holds the key "v" although "v" is no longer in
the collection. -/
theorem C10_remove_asymmetry :
    (∀ (st : AppCollections) (idxs : List Nat),
      (remove_selected_video st idxs).main_video_durations = st.main_video_durations) ∧
    (∀ (st : AppCollections) (idxs : List Nat),
      st.main_video_paths.Nodup → List.Pairwise (fun a b => a > b) idxs →
      (∀ i ∈ idxs, i < st.main_video_paths.length) →
      ∀ i ∈ idxs,
        st.main_video_paths.getD i "" ∉
          (remove_selected_video st idxs).main_video_paths) ∧
    (∀ (st : AppCollections) (idxs : List Nat),
      st.overlay_video_paths.Nodup → List.Pairwise (fun a b => a > b) idxs →
      (∀ i ∈ idxs, i < st.overlay_video_paths.length) →
      ∀ i ∈ idxs,
        st.overlay_video_paths.getD i "" ∉
            (remove_selected_overlay st idxs).overlay_video_paths ∧
        ∀ kv ∈ (remove_selected_overlay st idxs).overlay_video_durations,
          kv.1 ≠ st.overlay_video_paths.getD i "") ∧
    ((remove_selected_video ⟨["v"], [("v", 10)], [], []⟩ [0]).main_video_durations
        = [("v", 10)] ∧
      "v" ∉ (remove_selected_video ⟨["v"], [("v", 10)], [], []⟩ [0]).main_video_paths) := by
  refine ⟨?_, ?_, ?_, rfl, ?_⟩
  · intro st idxs
    exact (remove_video_frame idxs st).1
  · intro st idxs
    exact remove_video_not_mem idxs st
  · intro st idxs
    exact remove_overlay_not_mem idxs st
  · decide

/-- A two-overlay state for the C10 witness. -/
def overlayRemovalExample : AppCollections :=
  ⟨[], [], ["x", "y"], [("x", 4), ("y", 6)]⟩

/-- C10 witness: removing the overlay at index 1 deletes "y" from both the
overlay list and the overlay duration index. -/
theorem C10_remove_asymmetry_witness :
    (overlayRemovalExample.overlay_video_paths.Nodup ∧
      List.Pairwise (fun a b => a > b) [1] ∧
      (∀ i ∈ [1], i < overlayRemovalExample.overlay_video_paths.length)) ∧
    (overlayRemovalExample.overlay_video_paths.getD 1 "" ∉
        (remove_selected_overlay overlayRemovalExample [1]).overlay_video_paths ∧
      ∀ kv ∈ (remove_selected_overlay overlayRemovalExample [1]).overlay_video_durations,
        kv.1 ≠ overlayRemovalExample.overlay_video_paths.getD 1 "") :=
  ⟨⟨by decide, by decide, by decide⟩,
    C10_remove_asymmetry.2.2.1 overlayRemovalExample [1]
      (by decide) (by decide) (by decide) 1 (by decide)⟩

end VideoOverlay
